import Mathlib

/-!
Verification of the Game of Life state-transition engine (gameoflife.js).

The source represents a generation as a JS `Set` of string-encoded integer
coordinates together with four bounding-box numbers.  We embed the board as an
insertion-ordered duplicate-free list of integer pairs (a JS `Set` is exactly
an insertion-ordered collection with membership test), and translate the two
step algorithms:

* `nextState`  — the full-rectangle scan (third draft in the file);
* `fastNextState` — the island-search DFS (first draft in the file), with an
  explicit fuel parameter standing for the recursion depth; the top-level loop
  visits every live cell regardless of fuel, and all theorems are proved for
  the stated fuel bounds.
-/

namespace GameOfLife

abbrev Coord := ℤ × ℤ

/-- JS `Set.add`: append the element when it is absent (insertion order). -/
def setAdd (s : List Coord) (c : Coord) : List Coord :=
  if c ∈ s then s else s ++ [c]

/-- `class Range`: the half-open interval [lowerBound, upperBound) where a
`null` bound (here `none`) means unbounded. -/
structure Range where
  lowerBound : Option ℤ
  upperBound : Option ℤ

/-- `Range.inRange(num)`: `(lowerBound === null || lowerBound <= num) &&
(upperBound === null || num < upperBound)`. -/
def Range.inRange (r : Range) (num : ℤ) : Bool :=
  (match r.lowerBound with
   | none => true
   | some l => decide (l ≤ num)) &&
  (match r.upperBound with
   | none => true
   | some u => decide (num < u))

/-- `class GameRules`: survival range (`populate`) and birth range
(`reproduce`). -/
structure GameRules where
  populate : Range
  reproduce : Range

/-- The default-argument values of the `GameRules` constructor:
`new Range(2, 4)` and `new Range(3, 4)`. -/
def defaultRules : GameRules :=
  { populate := { lowerBound := some 2, upperBound := some 4 }
    reproduce := { lowerBound := some 3, upperBound := some 4 } }

/-- `GameRules.shouldLive(isCurrentlyAlive, numNeighbors)`. -/
def GameRules.shouldLive (rules : GameRules) (isCurrentlyAlive : Bool)
    (numNeighbors : ℤ) : Bool :=
  if isCurrentlyAlive then rules.populate.inRange numNeighbors
  else rules.reproduce.inRange numNeighbors

/-- The state owned by `class Game`: rule set, board (the JS `Set` of live
coordinates) and the four bounding-box fields. -/
structure Game where
  rules : GameRules
  board : List Coord
  minHeight : ℤ
  minWidth : ℤ
  maxHeight : ℤ
  maxWidth : ℤ

/-- The integers of `[lo, hi)` in ascending order (a JS
`for (let i = lo; i < hi; ++i)` loop). -/
def intRange (lo hi : ℤ) : List ℤ :=
  (List.range (hi - lo).toNat).map (fun (k : ℕ) => lo + (k : ℤ))

/-- The `Game` constructor.  `Math.random() < initDensity` is modelled by the
draw oracle `draw i j` giving the outcome of the comparison at cell (i, j). -/
def mkGame (initHeight initWidth : ℤ) (draw : ℤ → ℤ → Bool)
    (rules : GameRules) : Game :=
  { rules := rules
    board :=
      (intRange 0 initHeight).foldl (fun acc i =>
        (intRange 0 initWidth).foldl (fun acc j =>
          if draw i j = true then setAdd acc (i, j) else acc) acc) []
    minHeight := 0
    minWidth := 0
    maxHeight := initHeight
    maxWidth := initWidth }

/-- The 3-by-3 neighbourhood scanned by the nested
`for (let i = row - 1; i <= row + 1; ++i) for (let j = col - 1; ...)` loops,
in iteration order, centre included. -/
def nbhd (row col : ℤ) : List Coord :=
  [(row - 1, col - 1), (row - 1, col), (row - 1, col + 1),
   (row, col - 1), (row, col), (row, col + 1),
   (row + 1, col - 1), (row + 1, col), (row + 1, col + 1)]

/-- `countNeighbors(row, col)`: the number of cells of the 3-by-3
neighbourhood other than the centre that are present in the board. -/
def countNeighbors (board : List Coord) (row col : ℤ) : ℤ :=
  (((nbhd row col).filter
      (fun c => decide (c ≠ (row, col)) && decide (c ∈ board))).length : ℤ)

/-- The decision computed for one cell by both step algorithms:
`rules.shouldLive(board.has(cell), countNeighbors(cell))`. -/
def willLive (g : Game) (c : Coord) : Bool :=
  g.rules.shouldLive (decide (c ∈ g.board)) (countNeighbors g.board c.1 c.2)

/-- The accumulator of the `nextState` scan: `newBoard` plus the four
`newMinHeight` / `newMinWidth` / `newMaxHeight` / `newMaxWidth` variables. -/
structure ScanAcc where
  newBoard : List Coord
  newMinHeight : ℤ
  newMinWidth : ℤ
  newMaxHeight : ℤ
  newMaxWidth : ℤ

/-- The body of the `nextState` double loop for one scanned cell: add the
cell when it should live, and update the bound variables with the `if` /
`else if` cascade of the source (both comparisons are against the old
`this.minHeight` / `this.maxHeight`, not the running values). -/
def scanCell (g : Game) (acc : ScanAcc) (row col : ℤ) : ScanAcc :=
  if willLive g (row, col) = true then
    { newBoard := setAdd acc.newBoard (row, col)
      newMinHeight := if row < g.minHeight then row else acc.newMinHeight
      newMaxHeight :=
        if ¬ row < g.minHeight ∧ row = g.maxHeight then row + 1
        else acc.newMaxHeight
      newMinWidth := if col < g.minWidth then col else acc.newMinWidth
      newMaxWidth :=
        if ¬ col < g.minWidth ∧ col = g.maxWidth then col + 1
        else acc.newMaxWidth }
  else acc

/-- The cells scanned by `nextState`, in loop order: rows
`minHeight - 1 .. maxHeight` and columns `minWidth - 1 .. maxWidth`,
both inclusive. -/
def scanCells (g : Game) : List Coord :=
  (intRange (g.minHeight - 1) (g.maxHeight + 1)).flatMap (fun r =>
    (intRange (g.minWidth - 1) (g.maxWidth + 1)).map (fun c => (r, c)))

/-- The initial values of the `newBoard` / `newMin*` / `newMax*` variables
of `nextState`. -/
def scanInit (g : Game) : ScanAcc :=
  { newBoard := []
    newMinHeight := g.minHeight
    newMinWidth := g.minWidth
    newMaxHeight := g.maxHeight
    newMaxWidth := g.maxWidth }

/-- The double scanning loop of `nextState`. -/
def scanFold (g : Game) : ScanAcc :=
  (scanCells g).foldl (fun a c => scanCell g a c.1 c.2) (scanInit g)

/-- `Game.nextState()`: the full-rectangle reference step. -/
def nextState (g : Game) : Game :=
  { rules := g.rules
    board := (scanFold g).newBoard
    minHeight := (scanFold g).newMinHeight
    minWidth := (scanFold g).newMinWidth
    maxHeight := (scanFold g).newMaxHeight
    maxWidth := (scanFold g).newMaxWidth }

/-- The mutable state threaded through the island-search step: the `visited`
set, the `newBoard` set, and the `boundaries` object (initialised from the
game's bounds, hence never `null`; the `== null` checks of the source are
therefore dead and the `|| 0` of the final assignment is the identity). -/
structure FastAcc where
  visited : List Coord
  newBoard : List Coord
  minHeight : ℤ
  minWidth : ℤ
  maxHeight : ℤ
  maxWidth : ℤ

/-- `updateBoardBoundaries(currentBoundaries, row, col)` of the island-search
draft: four independent `if` statements. -/
def updateBoardBoundaries (b : FastAcc) (row col : ℤ) : FastAcc :=
  { b with
    minHeight := if row < b.minHeight then row else b.minHeight
    maxHeight := if row = b.maxHeight then row + 1 else b.maxHeight
    minWidth := if col < b.minWidth then col else b.minWidth
    maxWidth := if col = b.maxWidth then col + 1 else b.maxWidth }

/-- `newBoard.add(...)` immediately followed by
`updateBoardBoundaries(boundaries, ...)`, as performed at every recording
site of `dfs`. -/
def recordCell (st : FastAcc) (row col : ℤ) : FastAcc :=
  updateBoardBoundaries
    { st with newBoard := setAdd st.newBoard (row, col) } row col

/-- `dfs(row, col, visited, newBoard, boundaries)`.  The `fuel` argument
bounds the recursion depth (the JS recursion terminates because `visited`
only grows inside the finite reachable region); a recursive call that runs
out of fuel is a no-op, exactly like the `visited.has` early return. -/
def dfs (g : Game) : ℕ → ℤ → ℤ → FastAcc → FastAcc
  | 0, _, _, st => st
  | fuel + 1, row, col, st =>
    if (row, col) ∈ st.visited then st
    else
      let st1 : FastAcc := { st with visited := setAdd st.visited (row, col) }
      if (row, col) ∉ g.board ∧
          g.rules.shouldLive false (countNeighbors g.board row col) = true then
        recordCell st1 row col
      else
        (nbhd row col).foldl (fun acc c =>
          if willLive g c = true then
            let acc1 := recordCell acc c.1 c.2
            if c ≠ (row, col) then dfs g fuel c.1 c.2 acc1 else acc1
          else acc) st1

/-- The initial DFS state of `fastNextState`: empty `visited` and `newBoard`
sets, boundaries initialised from the game's current bounds. -/
def fastInit (g : Game) : FastAcc :=
  { visited := []
    newBoard := []
    minHeight := g.minHeight
    minWidth := g.minWidth
    maxHeight := g.maxHeight
    maxWidth := g.maxWidth }

/-- The `for (let loc of this.board) dfs(...)` loop of `fastNextState`. -/
def fastFold (fuel : ℕ) (g : Game) : FastAcc :=
  g.board.foldl (fun st c => dfs g fuel c.1 c.2 st) (fastInit g)

/-- `Game.fastNextState()` (island-search draft): run `dfs` from every live
cell, then install the new board and the boundary object's values (the
source's `boundaries.minHeight || 0` is the identity because the boundary
fields are initialised from the game's numeric bounds, never `null`). -/
def fastNextState (fuel : ℕ) (g : Game) : Game :=
  { rules := g.rules
    board := (fastFold fuel g).newBoard
    minHeight := (fastFold fuel g).minHeight
    minWidth := (fastFold fuel g).minWidth
    maxHeight := (fastFold fuel g).maxHeight
    maxWidth := (fastFold fuel g).maxWidth }

/-- `Game.toString()` as a character list (`board += ...` string building):
for each row of `[minHeight, maxHeight)` append one character per column of
`[minWidth, maxWidth)` — the glyph X when the cell is live, a space
otherwise — then append a newline. -/
def render (g : Game) : List Char :=
  (intRange g.minHeight g.maxHeight).foldl (fun s i =>
    ((intRange g.minWidth g.maxWidth).foldl (fun s j =>
      s ++ [if (i, j) ∈ g.board then 'X' else ' ']) s) ++ ['\n']) []

/-- `Game.toString()`. -/
def Game.toString (g : Game) : String :=
  String.mk (render g)

/-- `playFromParams()`: URL parameters modelled as an association list of
numeric values; `urlParams.get(k) ? +urlParams.get(k) : d` keeps a present
value and falls back to the default otherwise.  `density` only feeds the
random seeding (the draw oracle) and `delay` only the animation loop, so
neither appears in the constructed state; the rule set is the constructor
default. -/
def playFromParams (params : List (String × ℤ)) (draw : ℤ → ℤ → Bool) : Game :=
  mkGame ((params.lookup "height").getD 100) ((params.lookup "width").getD 100)
    draw defaultRules

/-! ### Specification-side predicates used to state the claims -/

/-- The bounding-box invariant of the spec data model. -/
def boardInv (g : Game) : Prop :=
  ∀ c ∈ g.board,
    g.minHeight ≤ c.1 ∧ c.1 < g.maxHeight ∧
    g.minWidth ≤ c.2 ∧ c.2 < g.maxWidth

/-- A non-degenerate bounding box (lower bounds not beyond upper bounds);
holds for every box the program ever constructs. -/
def boxWF (g : Game) : Prop :=
  g.minHeight ≤ g.maxHeight ∧ g.minWidth ≤ g.maxWidth

/-- The coordinate lies within Chebyshev distance one of some live cell. -/
def nearLive (g : Game) (x : Coord) : Prop :=
  ∃ a ∈ g.board, x ∈ nbhd a.1 a.2

/-- The eight Moore neighbours of a cell (spec wording of `countNeighbors`). -/
def mooreNeighbors (row col : ℤ) : List Coord :=
  [(row - 1, col - 1), (row - 1, col), (row - 1, col + 1),
   (row, col - 1), (row, col + 1),
   (row + 1, col - 1), (row + 1, col), (row + 1, col + 1)]

/-- The row-by-row text block demanded by the Render contract: one line per
row of `[minHeight, maxHeight)`, one character per column of
`[minWidth, maxWidth)`. -/
def renderLinesSpec (g : Game) : List (List Char) :=
  (intRange g.minHeight g.maxHeight).map (fun i =>
    (intRange g.minWidth g.maxWidth).map (fun j =>
      if (i, j) ∈ g.board then 'X' else ' '))

/-- The body of the 3-by-3 loop of `dfs` (identical, after zeta reduction, to
the closure inside `dfs`). -/
def loopStep (g : Game) (fuel : ℕ) (row col : ℤ) (acc : FastAcc) (c : Coord) :
    FastAcc :=
  if willLive g c = true then
    if c ≠ (row, col) then dfs g fuel c.1 c.2 (recordCell acc c.1 c.2)
    else recordCell acc c.1 c.2
  else acc
/-- Growth ordering on DFS states: both sets only gain members, the lower
bounds only decrease and the upper bounds only increase. -/
def accLE (a b : FastAcc) : Prop :=
  (∀ x ∈ a.visited, x ∈ b.visited) ∧ (∀ x ∈ a.newBoard, x ∈ b.newBoard) ∧
  b.minHeight ≤ a.minHeight ∧ b.minWidth ≤ a.minWidth ∧
  a.maxHeight ≤ b.maxHeight ∧ a.maxWidth ≤ b.maxWidth
/-- A coordinate lies inside the tracked boundary box of a DFS state. -/
def inBoxF (st : FastAcc) (x : Coord) : Prop :=
  st.minHeight ≤ x.1 ∧ x.1 < st.maxHeight ∧
  st.minWidth ≤ x.2 ∧ x.2 < st.maxWidth
/-- Soundness invariant of the island search: everything recorded so far
should live, is near a live cell, and lies inside the tracked box; the
tracked box extends the input box outward. -/
def SoundInv (g : Game) (st : FastAcc) : Prop :=
  (∀ x ∈ st.newBoard, willLive g x = true ∧ nearLive g x ∧ inBoxF st x) ∧
  g.maxHeight ≤ st.maxHeight ∧ g.maxWidth ≤ st.maxWidth
/-- Every visited live cell of a DFS state has its whole neighbourhood
decided in the state. -/
def processed (g : Game) (st : FastAcc) : Prop :=
  ∀ q ∈ st.visited, q ∈ g.board →
    ∀ x ∈ nbhd q.1 q.2, willLive g x = true → x ∈ st.newBoard
/-- The scan only moves bounds outward (regardless of any well-formedness). -/
def ScanMono (g : Game) (acc : ScanAcc) : Prop :=
  acc.newMinHeight ≤ g.minHeight ∧ acc.newMinWidth ≤ g.minWidth ∧
  g.maxHeight ≤ acc.newMaxHeight ∧ g.maxWidth ≤ acc.newMaxWidth
/-- Exact tracking of the scan's bound variables, plus containment of every
recorded cell, for a well-formed input box. -/
def ScanBox (g : Game) (acc : ScanAcc) : Prop :=
  (acc.newMinHeight = g.minHeight ∨ acc.newMinHeight = g.minHeight - 1) ∧
  (acc.newMaxHeight = g.maxHeight ∨ acc.newMaxHeight = g.maxHeight + 1) ∧
  (acc.newMinWidth = g.minWidth ∨ acc.newMinWidth = g.minWidth - 1) ∧
  (acc.newMaxWidth = g.maxWidth ∨ acc.newMaxWidth = g.maxWidth + 1) ∧
  (∀ x ∈ acc.newBoard,
    acc.newMinHeight ≤ x.1 ∧ x.1 < acc.newMaxHeight ∧
    acc.newMinWidth ≤ x.2 ∧ x.2 < acc.newMaxWidth)

/-- A blinker (row of three live cells) with its tight box. -/
def blinkerGame : Game :=
  { rules := defaultRules, board := [(0, 0), (0, 1), (0, 2)]
    minHeight := 0, minWidth := 0, maxHeight := 1, maxWidth := 3 }

/-- A 2-by-2 block (still life) with its tight box. -/
def blockGame : Game :=
  { rules := defaultRules, board := [(0, 0), (0, 1), (1, 0), (1, 1)]
    minHeight := 0, minWidth := 0, maxHeight := 2, maxWidth := 2 }

/-- A single live cell. -/
def singleCellGame : Game :=
  { rules := defaultRules, board := [(0, 0)]
    minHeight := 0, minWidth := 0, maxHeight := 1, maxWidth := 1 }

/-- An empty generation whose rule births cells with zero live neighbours
(birth range [0, 1)); constructible through the `GameRules` constructor. -/
def emptyBirthZeroGame : Game :=
  { rules :=
      { populate := { lowerBound := some 2, upperBound := some 4 }
        reproduce := { lowerBound := some 0, upperBound := some 1 } }
    board := [], minHeight := 0, minWidth := 0, maxHeight := 1, maxWidth := 1 }

/-- An empty generation with default rules and box (0, 0, 2, 3). -/
def emptyGame23 : Game :=
  { rules := defaultRules, board := []
    minHeight := 0, minWidth := 0, maxHeight := 2, maxWidth := 3 }

/-- An empty generation with a shifted box and a zero-containing birth
range. -/
def emptyShiftedGame : Game :=
  { rules :=
      { populate := { lowerBound := some 2, upperBound := some 4 }
        reproduce := { lowerBound := some 0, upperBound := some 4 } }
    board := [], minHeight := 3, minWidth := 4, maxHeight := 5, maxWidth := 6 }

/-! ### Basic lemmas -/

lemma mem_intRange {x lo hi : ℤ} : x ∈ intRange lo hi ↔ lo ≤ x ∧ x < hi := by
  constructor
  · intro hx
    obtain ⟨k, hk, hkx⟩ := List.mem_map.mp hx
    rw [List.mem_range] at hk
    omega
  · intro h
    refine List.mem_map.mpr ⟨(x - lo).toNat, ?_, ?_⟩
    · rw [List.mem_range]
      omega
    · omega

lemma intRange_eq_nil {lo hi : ℤ} (h : hi ≤ lo) : intRange lo hi = [] := by
  rw [intRange]
  have h0 : (hi - lo).toNat = 0 := by omega
  rw [h0]
  rfl

lemma mem_setAdd {s : List Coord} {c x : Coord} :
    x ∈ setAdd s c ↔ x ∈ s ∨ x = c := by
  simp only [setAdd]
  split
  · rename_i h
    constructor
    · exact Or.inl
    · rintro (hx | rfl)
      · exact hx
      · exact h
  · simp

lemma subset_setAdd {s : List Coord} {c : Coord} : ∀ x ∈ s, x ∈ setAdd s c :=
  fun x hx => mem_setAdd.mpr (Or.inl hx)

lemma mem_nbhd {x : Coord} {r c : ℤ} :
    x ∈ nbhd r c ↔ r - 1 ≤ x.1 ∧ x.1 ≤ r + 1 ∧ c - 1 ≤ x.2 ∧ x.2 ≤ c + 1 := by
  obtain ⟨a, b⟩ := x
  simp only [nbhd, List.mem_cons, List.not_mem_nil, or_false, Prod.mk.injEq]
  omega

lemma center_mem_nbhd {r c : ℤ} : ((r, c) : Coord) ∈ nbhd r c := by
  rw [mem_nbhd]
  omega

lemma nbhd_symm {x y : Coord} (h : x ∈ nbhd y.1 y.2) : y ∈ nbhd x.1 x.2 := by
  rw [mem_nbhd] at h ⊢
  omega

lemma countNeighbors_nonneg (board : List Coord) (row col : ℤ) :
    0 ≤ countNeighbors board row col := by
  simp [countNeighbors]

lemma countNeighbors_pos {board : List Coord} {row col : ℤ}
    (h : countNeighbors board row col ≠ 0) :
    ∃ a ∈ board, a ≠ (row, col) ∧ a ∈ nbhd row col := by
  simp only [countNeighbors, Int.natCast_eq_zero] at h
  have h2 : ((nbhd row col).filter
      (fun c => decide (c ≠ (row, col)) && decide (c ∈ board))) ≠ [] := by
    intro hnil
    exact h (by rw [hnil]; rfl)
  obtain ⟨a, ha⟩ := List.exists_mem_of_ne_nil _ h2
  have := List.of_mem_filter ha
  have hmem := List.mem_of_mem_filter ha
  simp only [Bool.and_eq_true, decide_eq_true_eq] at this
  exact ⟨a, this.2, this.1, hmem⟩

/-- Generic preservation of a predicate along a left fold. -/
lemma foldl_pres {σ α : Type} {P : σ → Prop} :
    ∀ (l : List α) (f : σ → α → σ) (a : σ),
      (∀ s x, x ∈ l → P s → P (f s x)) → P a → P (l.foldl f a)
  | [], _, _, _, ha => ha
  | x :: t, f, a, h, ha =>
    foldl_pres t f (f a x) (fun s y hy => h s y (List.mem_cons_of_mem _ hy))
      (h a x (List.mem_cons_self _ _) ha)

/-! ### The island-search step: monotonicity of the DFS state -/

lemma dfs_succ (g : Game) (fuel : ℕ) (row col : ℤ) (st : FastAcc) :
    dfs g (fuel + 1) row col st =
      if (row, col) ∈ st.visited then st
      else if (row, col) ∉ g.board ∧
          g.rules.shouldLive false (countNeighbors g.board row col) = true then
        recordCell { st with visited := setAdd st.visited (row, col) } row col
      else
        (nbhd row col).foldl (loopStep g fuel row col)
          { st with visited := setAdd st.visited (row, col) } := rfl

lemma accLE_refl (a : FastAcc) : accLE a a :=
  ⟨fun _ h => h, fun _ h => h, le_refl _, le_refl _, le_refl _, le_refl _⟩

lemma accLE_trans {a b c : FastAcc} (h1 : accLE a b) (h2 : accLE b c) :
    accLE a c :=
  ⟨fun x hx => h2.1 x (h1.1 x hx), fun x hx => h2.2.1 x (h1.2.1 x hx),
   le_trans h2.2.2.1 h1.2.2.1, le_trans h2.2.2.2.1 h1.2.2.2.1,
   le_trans h1.2.2.2.2.1 h2.2.2.2.2.1, le_trans h1.2.2.2.2.2 h2.2.2.2.2.2⟩

lemma recordCell_le (st : FastAcc) (row col : ℤ) :
    accLE st (recordCell st row col) := by
  refine ⟨fun x hx => hx, fun x hx => subset_setAdd x hx, ?_, ?_, ?_, ?_⟩ <;>
    simp only [recordCell, updateBoardBoundaries] <;> split <;> omega

lemma addVisited_le (st : FastAcc) (c : Coord) :
    accLE st { st with visited := setAdd st.visited c } :=
  ⟨fun x hx => subset_setAdd x hx, fun _ h => h,
   le_refl _, le_refl _, le_refl _, le_refl _⟩

lemma foldl_le {f : FastAcc → Coord → FastAcc} {l : List Coord} {a : FastAcc}
    (h : ∀ s x, x ∈ l → accLE s (f s x)) : accLE a (l.foldl f a) :=
  foldl_pres l f a (fun s x hx hs => accLE_trans hs (h s x hx)) (accLE_refl a)

lemma dfs_le (g : Game) :
    ∀ (fuel : ℕ) (row col : ℤ) (st : FastAcc), accLE st (dfs g fuel row col st) := by
  intro fuel
  induction fuel with
  | zero => intro row col st; exact accLE_refl st
  | succ n ih =>
    intro row col st
    rw [dfs_succ]
    split
    · exact accLE_refl st
    · split
      · exact accLE_trans (addVisited_le st (row, col)) (recordCell_le _ row col)
      · refine accLE_trans (addVisited_le st (row, col)) (foldl_le ?_)
        intro s c _
        unfold loopStep
        split
        · split
          · exact accLE_trans (recordCell_le s c.1 c.2) (ih c.1 c.2 _)
          · exact recordCell_le s c.1 c.2
        · exact accLE_refl s

lemma loopStep_le (g : Game) (fuel : ℕ) (row col : ℤ) (acc : FastAcc)
    (c : Coord) : accLE acc (loopStep g fuel row col acc c) := by
  unfold loopStep
  split
  · split
    · exact accLE_trans (recordCell_le acc c.1 c.2) (dfs_le g fuel c.1 c.2 _)
    · exact recordCell_le acc c.1 c.2
  · exact accLE_refl acc

lemma dfs_visits (g : Game) {fuel : ℕ} (hf : 1 ≤ fuel) (row col : ℤ)
    (st : FastAcc) : (row, col) ∈ (dfs g fuel row col st).visited := by
  obtain ⟨n, rfl⟩ : ∃ n, fuel = n + 1 := ⟨fuel - 1, by omega⟩
  rw [dfs_succ]
  split
  · assumption
  · have hmem : (row, col) ∈ (setAdd st.visited (row, col)) :=
      mem_setAdd.mpr (Or.inr rfl)
    split
    · exact hmem
    · exact (foldl_le (fun s x hx => loopStep_le g n row col s x)).1 _ hmem

/-! ### The island-search step: completeness -/

@[simp] lemma recordCell_visited (st : FastAcc) (row col : ℤ) :
    (recordCell st row col).visited = st.visited := rfl

@[simp] lemma recordCell_newBoard (st : FastAcc) (row col : ℤ) :
    (recordCell st row col).newBoard = setAdd st.newBoard (row, col) := rfl

/-- Every cell of the scanned list that should live ends up in the new board
after the 3-by-3 loop. -/
lemma loop_mem (g : Game) (fuel : ℕ) (row col : ℤ) :
    ∀ (l : List Coord) (acc : FastAcc) (x : Coord),
      x ∈ l → willLive g x = true →
      x ∈ (l.foldl (loopStep g fuel row col) acc).newBoard := by
  intro l
  induction l with
  | nil =>
    intro acc x hx _
    cases hx
  | cons c t iht =>
    intro acc x hx hwx
    simp only [List.foldl_cons]
    rcases List.mem_cons.mp hx with rfl | hxt
    · have hxmem : x ∈ (loopStep g fuel row col acc x).newBoard := by
        unfold loopStep
        rw [if_pos hwx]
        have hrec : x ∈ (recordCell acc x.1 x.2).newBoard := by
          rw [recordCell_newBoard, Prod.mk.eta]
          exact mem_setAdd.mpr (Or.inr rfl)
        split
        · exact (dfs_le g fuel x.1 x.2 _).2.1 x hrec
        · exact hrec
      exact (foldl_le (fun s y _ => loopStep_le g fuel row col s y)).2.1 x hxmem
    · exact iht _ x hxt hwx

/-- Inner-loop version of `dfs_procA`: a cell first visited during the
3-by-3 loop (necessarily inside a recursive `dfs` call) has, when it is a
live cell, its whole neighbourhood decided in the loop's final state. -/
lemma loopFold_procA (g : Game) (n : ℕ) (row col : ℤ)
    (ihstep : ∀ (r c : ℤ) (st : FastAcc) (q : Coord),
      q ∈ (dfs g n r c st).visited → q ∉ st.visited → q ∈ g.board →
      ∀ x ∈ nbhd q.1 q.2, willLive g x = true →
        x ∈ (dfs g n r c st).newBoard) :
    ∀ (l : List Coord) (acc : FastAcc) (q : Coord),
      q ∈ (l.foldl (loopStep g n row col) acc).visited → q ∉ acc.visited →
      q ∈ g.board → ∀ x ∈ nbhd q.1 q.2, willLive g x = true →
        x ∈ (l.foldl (loopStep g n row col) acc).newBoard := by
  intro l
  induction l with
  | nil =>
    intro acc q hq hq' _ x _ _
    exact absurd hq hq'
  | cons c t iht =>
    intro acc q hq hq' hqb x hx hwx
    simp only [List.foldl_cons] at hq ⊢
    by_cases h1 : q ∈ (loopStep g n row col acc c).visited
    · have hxmem : x ∈ (loopStep g n row col acc c).newBoard := by
        unfold loopStep at h1 ⊢
        by_cases hw : willLive g c = true
        · rw [if_pos hw] at h1 ⊢
          by_cases hc : c ≠ (row, col)
          · rw [if_pos hc] at h1 ⊢
            refine ihstep c.1 c.2 _ q h1 ?_ hqb x hx hwx
            rw [recordCell_visited]
            exact hq'
          · rw [if_neg hc] at h1 ⊢
            rw [recordCell_visited] at h1
            exact absurd h1 hq'
        · rw [if_neg hw] at h1 ⊢
          exact absurd h1 hq'
      exact (foldl_le (fun s y _ => loopStep_le g n row col s y)).2.1 x hxmem
    · exact iht (loopStep g n row col acc c) q hq h1 hqb x hx hwx

/-- Any live cell first visited by a `dfs` call has its whole 3-by-3
neighbourhood decided in that call's result. -/
lemma dfs_procA (g : Game) :
    ∀ (fuel : ℕ) (row col : ℤ) (st : FastAcc) (q : Coord),
      q ∈ (dfs g fuel row col st).visited → q ∉ st.visited → q ∈ g.board →
      ∀ x ∈ nbhd q.1 q.2, willLive g x = true →
        x ∈ (dfs g fuel row col st).newBoard := by
  intro fuel
  induction fuel with
  | zero =>
    intro row col st q hq hq' _ x _ _
    exact absurd hq hq'
  | succ n ih =>
    intro row col st q hq hq' hqb x hx hwx
    rw [dfs_succ] at hq ⊢
    by_cases hv : (row, col) ∈ st.visited
    · rw [if_pos hv] at hq ⊢
      exact absurd hq hq'
    · rw [if_neg hv] at hq ⊢
      by_cases hearly : (row, col) ∉ g.board ∧
          g.rules.shouldLive false (countNeighbors g.board row col) = true
      · rw [if_pos hearly] at hq ⊢
        rw [recordCell_visited] at hq
        rcases mem_setAdd.mp hq with h | rfl
        · exact absurd h hq'
        · exact absurd hqb hearly.1
      · rw [if_neg hearly] at hq ⊢
        by_cases hqc : q = (row, col)
        · subst hqc
          exact loop_mem g n row col (nbhd row col) _ x hx hwx
        · refine loopFold_procA g n row col ih (nbhd row col) _ q hq ?_ hqb x hx hwx
          intro hmem
          rcases mem_setAdd.mp hmem with h | h
          · exact hq' h
          · exact hqc h

lemma topfold_processed (g : Game) (fuel : ℕ) (l : List Coord) (st : FastAcc)
    (h : processed g st) :
    processed g (l.foldl (fun st c => dfs g fuel c.1 c.2 st) st) := by
  refine foldl_pres l _ st ?_ h
  intro s p _ hs q hq hqb x hx hwx
  by_cases hqv : q ∈ s.visited
  · exact (dfs_le g fuel p.1 p.2 s).2.1 x (hs q hqv hqb x hx hwx)
  · exact dfs_procA g fuel p.1 p.2 s q hq hqv hqb x hx hwx

lemma topfold_visits (g : Game) {fuel : ℕ} (hf : 1 ≤ fuel) :
    ∀ (l : List Coord) (st : FastAcc) (p : Coord), p ∈ l →
      p ∈ (l.foldl (fun st c => dfs g fuel c.1 c.2 st) st).visited := by
  intro l
  induction l with
  | nil =>
    intro st p hp
    cases hp
  | cons c t iht =>
    intro st p hp
    simp only [List.foldl_cons]
    rcases List.mem_cons.mp hp with rfl | hpt
    · have h1 : p ∈ (dfs g fuel p.1 p.2 st).visited := by
        have := dfs_visits g hf p.1 p.2 st
        rwa [Prod.mk.eta] at this
      exact (foldl_le (fun s y _ => dfs_le g fuel y.1 y.2 s)).1 p h1
    · exact iht _ p hpt

/-- Completeness of the island search: every cell in the neighbourhood of a
live cell that should live next is in the produced board. -/
lemma fast_complete (g : Game) {fuel : ℕ} (hf : 1 ≤ fuel) (p : Coord)
    (hp : p ∈ g.board) (x : Coord) (hx : x ∈ nbhd p.1 p.2)
    (hw : willLive g x = true) : x ∈ (fastNextState fuel g).board := by
  have hinit : processed g (fastInit g) := by
    intro q hq
    cases hq
  have hproc := topfold_processed g fuel g.board (fastInit g) hinit
  exact hproc p (topfold_visits g hf g.board (fastInit g) p hp) hp x hx hw

/-! ### The island-search step: soundness and bound tracking -/

@[simp] lemma recordCell_minHeight (st : FastAcc) (row col : ℤ) :
    (recordCell st row col).minHeight =
      if row < st.minHeight then row else st.minHeight := rfl

@[simp] lemma recordCell_maxHeight (st : FastAcc) (row col : ℤ) :
    (recordCell st row col).maxHeight =
      if row = st.maxHeight then row + 1 else st.maxHeight := rfl

@[simp] lemma recordCell_minWidth (st : FastAcc) (row col : ℤ) :
    (recordCell st row col).minWidth =
      if col < st.minWidth then col else st.minWidth := rfl

@[simp] lemma recordCell_maxWidth (st : FastAcc) (row col : ℤ) :
    (recordCell st row col).maxWidth =
      if col = st.maxWidth then col + 1 else st.maxWidth := rfl

lemma recordCell_sound {g : Game} {st : FastAcc} {row col : ℤ}
    (hinv : boardInv g) (hst : SoundInv g st)
    (hw : willLive g (row, col) = true) (hb : nearLive g (row, col)) :
    SoundInv g (recordCell st row col) := by
  obtain ⟨a, ha, hna⟩ := hb
  have hbounds := hinv a ha
  rw [mem_nbhd] at hna
  have hrow : g.minHeight - 1 ≤ row ∧ row ≤ g.maxHeight := by
    simp only at hna
    omega
  have hcol : g.minWidth - 1 ≤ col ∧ col ≤ g.maxWidth := by
    simp only at hna
    omega
  obtain ⟨hcells, hmaxH, hmaxW⟩ := hst
  refine ⟨?_, ?_, ?_⟩
  · intro x hx
    rw [recordCell_newBoard] at hx
    rcases mem_setAdd.mp hx with hold | rfl
    · obtain ⟨hw1, hb1, hbox1⟩ := hcells x hold
      refine ⟨hw1, hb1, ?_, ?_, ?_, ?_⟩ <;>
        simp only [inBoxF, recordCell_minHeight, recordCell_maxHeight,
          recordCell_minWidth, recordCell_maxWidth] at hbox1 ⊢ <;>
        split <;> omega
    · refine ⟨hw, ⟨a, ha, mem_nbhd.mpr hna⟩, ?_, ?_, ?_, ?_⟩ <;>
        simp only [recordCell_minHeight, recordCell_maxHeight,
          recordCell_minWidth, recordCell_maxWidth] <;>
        split <;> omega
  · simp only [recordCell_maxHeight]
    split <;> omega
  · simp only [recordCell_maxWidth]
    split <;> omega

lemma dfs_sound {g : Game} (hinv : boardInv g) :
    ∀ (fuel : ℕ) (row col : ℤ) (st : FastAcc),
      ((row, col) ∈ g.board ∨
        (willLive g (row, col) = true ∧ nearLive g (row, col))) →
      SoundInv g st → SoundInv g (dfs g fuel row col st) := by
  intro fuel
  induction fuel with
  | zero =>
    intro row col st _ hst
    exact hst
  | succ n ih =>
    intro row col st hyp hst
    rw [dfs_succ]
    split
    · exact hst
    · have hst1 : SoundInv g { st with visited := setAdd st.visited (row, col) } :=
        hst
      split
      · rename_i hearly
        rcases hyp with hmem | ⟨hw', hb'⟩
        · exact absurd hmem hearly.1
        · exact recordCell_sound hinv hst1 hw' hb'
      · rename_i hearly
        have hmem : (row, col) ∈ g.board := by
          rcases hyp with hmem | ⟨hw', _⟩
          · exact hmem
          · by_contra hnot
            refine hearly ⟨hnot, ?_⟩
            have hdec : decide ((row, col) ∈ g.board) = false :=
              decide_eq_false hnot
            rw [willLive, hdec] at hw'
            exact hw'
        refine foldl_pres (nbhd row col) _ _ ?_ hst1
        intro s y hy hs
        unfold loopStep
        split
        · rename_i hwy
          have hby : nearLive g y := ⟨(row, col), hmem, hy⟩
          have hrec : SoundInv g (recordCell s y.1 y.2) := by
            have := recordCell_sound hinv hs (by rwa [Prod.mk.eta]) (by rwa [Prod.mk.eta])
            exact this
          split
          · refine ih y.1 y.2 _ (Or.inr ⟨?_, ?_⟩) hrec
            · rwa [Prod.mk.eta]
            · rwa [Prod.mk.eta]
          · exact hrec
        · exact hs

/-- Soundness of the whole island-search step. -/
lemma fast_sound {g : Game} (hinv : boardInv g) (fuel : ℕ) :
    SoundInv g (fastFold fuel g) := by
  refine foldl_pres g.board _ (fastInit g) ?_ ?_
  · intro s p hp hs
    refine dfs_sound hinv fuel p.1 p.2 s (Or.inl ?_) hs
    rwa [Prod.mk.eta]
  · exact ⟨fun x hx => absurd hx (List.not_mem_nil x), le_refl _, le_refl _⟩

/-! ### The full-rectangle step -/

lemma mem_scanCells {g : Game} {x : Coord} :
    x ∈ scanCells g ↔
      g.minHeight - 1 ≤ x.1 ∧ x.1 ≤ g.maxHeight ∧
      g.minWidth - 1 ≤ x.2 ∧ x.2 ≤ g.maxWidth := by
  constructor
  · intro hx
    obtain ⟨r, hr, hxr⟩ := List.mem_flatMap.mp hx
    obtain ⟨c, hc, hxc⟩ := List.mem_map.mp hxr
    rw [mem_intRange] at hr hc
    obtain rfl := hxc.symm
    constructor
    · omega
    constructor
    · omega
    constructor
    · omega
    · omega
  · intro h
    refine List.mem_flatMap.mpr ⟨x.1, mem_intRange.mpr (by omega), ?_⟩
    refine List.mem_map.mpr ⟨x.2, mem_intRange.mpr (by omega), ?_⟩
    exact Prod.mk.eta

lemma scanFold_mem_aux (g : Game) :
    ∀ (l : List Coord) (acc : ScanAcc) (x : Coord),
      x ∈ (l.foldl (fun a c => scanCell g a c.1 c.2) acc).newBoard ↔
      x ∈ acc.newBoard ∨ (x ∈ l ∧ willLive g x = true) := by
  intro l
  induction l with
  | nil =>
    intro acc x
    simp
  | cons c t iht =>
    intro acc x
    simp only [List.foldl_cons]
    rw [iht]
    unfold scanCell
    by_cases hw : willLive g (c.1, c.2) = true
    · rw [if_pos hw]
      have hwc : willLive g c = true := by rwa [Prod.mk.eta] at hw
      dsimp only
      rw [mem_setAdd]
      constructor
      · rintro ((h | rfl) | ⟨ht, hwx⟩)
        · exact Or.inl h
        · exact Or.inr ⟨by rw [Prod.mk.eta]; exact List.mem_cons_self c t, hwc⟩
        · exact Or.inr ⟨List.mem_cons_of_mem c ht, hwx⟩
      · rintro (h | ⟨hct, hwx⟩)
        · exact Or.inl (Or.inl h)
        · rcases List.mem_cons.mp hct with rfl | ht
          · exact Or.inl (Or.inr Prod.mk.eta.symm)
          · exact Or.inr ⟨ht, hwx⟩
    · rw [if_neg hw]
      constructor
      · rintro (h | ⟨ht, hwx⟩)
        · exact Or.inl h
        · exact Or.inr ⟨List.mem_cons_of_mem c ht, hwx⟩
      · rintro (h | ⟨hct, hwx⟩)
        · exact Or.inl h
        · rcases List.mem_cons.mp hct with rfl | ht
          · rw [Prod.mk.eta] at hw
            exact absurd hwx hw
          · exact Or.inr ⟨ht, hwx⟩

/-- Membership in the board produced by the full-rectangle step. -/
lemma mem_nextState {g : Game} {x : Coord} :
    x ∈ (nextState g).board ↔ x ∈ scanCells g ∧ willLive g x = true := by
  have := scanFold_mem_aux g (scanCells g) (scanInit g) x
  rw [show (nextState g).board = (scanFold g).newBoard from rfl]
  rw [scanFold, this]
  simp [scanInit]

lemma scanFold_mono (g : Game) : ScanMono g (scanFold g) := by
  refine foldl_pres _ _ _ ?_ ?_
  · intro s c _ hs
    unfold scanCell
    split
    · obtain ⟨h1, h2, h3, h4⟩ := hs
      refine ⟨?_, ?_, ?_, ?_⟩ <;> dsimp only <;> split <;> omega
    · exact hs
  · exact ⟨le_refl _, le_refl _, le_refl _, le_refl _⟩

lemma scanFold_box (g : Game) (hwf : boxWF g) : ScanBox g (scanFold g) := by
  obtain ⟨hwf1, hwf2⟩ := hwf
  refine foldl_pres _ _ _ ?_ ?_
  · intro s c hc hs
    have hrange := mem_scanCells.mp hc
    obtain ⟨h1, h2, h3, h4, h5⟩ := hs
    unfold scanCell
    split
    · refine ⟨?_, ?_, ?_, ?_, ?_⟩
      · dsimp only
        split <;> omega
      · dsimp only
        split <;> omega
      · dsimp only
        split <;> omega
      · dsimp only
        split <;> omega
      · intro x hx
        dsimp only at hx ⊢
        rcases mem_setAdd.mp hx with hold | rfl
        · have hx5 := h5 x hold
          refine ⟨?_, ?_, ?_, ?_⟩ <;> split <;> omega
        · refine ⟨?_, ?_, ?_, ?_⟩ <;> dsimp only <;> split <;> omega
    · exact ⟨h1, h2, h3, h4, h5⟩
  · exact ⟨Or.inl rfl, Or.inl rfl, Or.inl rfl, Or.inl rfl,
      fun x hx => absurd hx (List.not_mem_nil x)⟩

/-! ### Seeding and rendering -/

/-- Every cell the constructor seeds lies in the seeding rectangle. -/
lemma mkGame_board_rect (h w : ℤ) (draw : ℤ → ℤ → Bool) (rules : GameRules) :
    ∀ x ∈ (mkGame h w draw rules).board,
      0 ≤ x.1 ∧ x.1 < h ∧ 0 ≤ x.2 ∧ x.2 < w := by
  have : ∀ x ∈ (mkGame h w draw rules).board,
      (0:ℤ) ≤ x.1 ∧ x.1 < h ∧ (0:ℤ) ≤ x.2 ∧ x.2 < w := by
    refine @foldl_pres (List Coord) ℤ
      (fun b => ∀ x ∈ b, (0:ℤ) ≤ x.1 ∧ x.1 < h ∧ (0:ℤ) ≤ x.2 ∧ x.2 < w)
      (intRange 0 h) _ [] ?_ ?_
    · intro s i hi hs
      refine @foldl_pres (List Coord) ℤ
        (fun b => ∀ x ∈ b, (0:ℤ) ≤ x.1 ∧ x.1 < h ∧ (0:ℤ) ≤ x.2 ∧ x.2 < w)
        (intRange 0 w) _ s ?_ hs
      · intro s' j hj hs'
        split
        · intro x hx
          rcases mem_setAdd.mp hx with hold | rfl
          · exact hs' x hold
          · rw [mem_intRange] at hi hj
            exact ⟨by omega, by omega, by omega, by omega⟩
        · exact hs'
    · intro x hx
      exact absurd hx (List.not_mem_nil x)
  exact this

lemma intRange_length (lo hi : ℤ) : (intRange lo hi).length = (hi - lo).toNat := by
  rw [intRange, List.length_map, List.length_range]

lemma foldl_append_one {α : Type} (f : α → Char) :
    ∀ (l : List α) (s : List Char),
      l.foldl (fun s x => s ++ [f x]) s = s ++ l.map f := by
  intro l
  induction l with
  | nil =>
    intro s
    simp
  | cons x t iht =>
    intro s
    simp only [List.foldl_cons, List.map_cons, iht]
    simp

/-- The character-by-character string building of `toString` equals the
row-by-row rendering demanded by the spec. -/
lemma render_eq_lines (g : Game) :
    render g = (renderLinesSpec g).flatMap (fun line => line ++ ['\n']) := by
  have aux : ∀ (rows : List ℤ) (s : List Char),
      rows.foldl (fun s i =>
        ((intRange g.minWidth g.maxWidth).foldl (fun s j =>
          s ++ [if (i, j) ∈ g.board then 'X' else ' ']) s) ++ ['\n']) s
      = s ++ rows.flatMap (fun i =>
          ((intRange g.minWidth g.maxWidth).map (fun j =>
            if (i, j) ∈ g.board then 'X' else ' ')) ++ ['\n']) := by
    intro rows
    induction rows with
    | nil =>
      intro s
      simp
    | cons r t iht =>
      intro s
      simp only [List.foldl_cons, List.flatMap_cons]
      rw [foldl_append_one (fun j => if (r, j) ∈ g.board then 'X' else ' ')
        (intRange g.minWidth g.maxWidth) s]
      rw [iht]
      simp [List.append_assoc]
  have hmm : (renderLinesSpec g).flatMap (fun line => line ++ ['\n'])
      = (intRange g.minHeight g.maxHeight).flatMap (fun i =>
          ((intRange g.minWidth g.maxWidth).map (fun j =>
            if (i, j) ∈ g.board then 'X' else ' ')) ++ ['\n']) := by
    rw [renderLinesSpec, List.flatMap_map]
  rw [render, aux (intRange g.minHeight g.maxHeight) [], hmm]
  simp

/-! ### Assembled facts about the two steps -/

/-- The source's neighbour loop counts exactly the live cells among the
eight Moore neighbours. -/
lemma countNeighbors_moore (board : List Coord) (row col : ℤ) :
    countNeighbors board row col =
      (((mooreNeighbors row col).filter
        (fun c => decide (c ∈ board))).length : ℤ) := by
  have h1 : row - 1 ≠ row := by omega
  have h2 : col - 1 ≠ col := by omega
  have h3 : row + 1 ≠ row := by omega
  have h4 : col + 1 ≠ col := by omega
  simp [countNeighbors, nbhd, mooreNeighbors, List.filter, Prod.mk.injEq,
    h1, h2, h3, h4]

/-- The island-search step preserves the bounding-box invariant. -/
lemma fast_boardInv {g : Game} (hinv : boardInv g) (fuel : ℕ) :
    boardInv (fastNextState fuel g) := by
  intro c hc
  exact ((fast_sound hinv fuel).1 c hc).2.2

/-- The island-search boundaries only move outward. -/
lemma fastFold_le (fuel : ℕ) (g : Game) :
    accLE (fastInit g) (fastFold fuel g) :=
  foldl_le (fun s c _ => dfs_le g fuel c.1 c.2 s)

/-- The full-rectangle step preserves the bounding-box invariant, provided
the box is well formed (which it always is for program-built games). -/
lemma next_boardInv {g : Game} (hwf : boxWF g) : boardInv (nextState g) := by
  intro c hc
  exact (scanFold_box g hwf).2.2.2.2 c hc

lemma next_boxWF {g : Game} (hwf : boxWF g) : boxWF (nextState g) := by
  obtain ⟨h1, h2, h3, h4, _⟩ := scanFold_box g hwf
  obtain ⟨hwf1, hwf2⟩ := hwf
  constructor
  · show (scanFold g).newMinHeight ≤ (scanFold g).newMaxHeight
    omega
  · show (scanFold g).newMinWidth ≤ (scanFold g).newMaxWidth
    omega

lemma fast_boxWF {g : Game} (hwf : boxWF g) (fuel : ℕ) :
    boxWF (fastNextState fuel g) := by
  obtain ⟨_, _, ha, hb, hc, hd⟩ := fastFold_le fuel g
  obtain ⟨hwf1, hwf2⟩ := hwf
  constructor
  · show (fastFold fuel g).minHeight ≤ (fastFold fuel g).maxHeight
    have ha' : (fastFold fuel g).minHeight ≤ g.minHeight := ha
    have hc' : g.maxHeight ≤ (fastFold fuel g).maxHeight := hc
    omega
  · show (fastFold fuel g).minWidth ≤ (fastFold fuel g).maxWidth
    have hb' : (fastFold fuel g).minWidth ≤ g.minWidth := hb
    have hd' : g.maxWidth ≤ (fastFold fuel g).maxWidth := hd
    omega

/-- Equivalence of the two steps on the alive-set, for inputs satisfying the
box invariant and rules that cannot give birth on zero neighbours. -/
lemma mem_fast_iff_mem_next {g : Game} {fuel : ℕ} (hf : 1 ≤ fuel)
    (hinv : boardInv g) (hbirth : g.rules.reproduce.inRange 0 = false)
    (c : Coord) : c ∈ (fastNextState fuel g).board ↔ c ∈ (nextState g).board := by
  constructor
  · intro hc
    obtain ⟨hw, ⟨a, ha, hna⟩, _⟩ := (fast_sound hinv fuel).1 c hc
    have hb := hinv a ha
    rw [mem_nbhd] at hna
    refine mem_nextState.mpr ⟨mem_scanCells.mpr ?_, hw⟩
    omega
  · intro hc
    obtain ⟨hrange, hw⟩ := mem_nextState.mp hc
    by_cases hcb : c ∈ g.board
    · refine fast_complete g hf c hcb c ?_ hw
      have := @center_mem_nbhd c.1 c.2
      rwa [Prod.mk.eta] at this
    · have hdec : decide (c ∈ g.board) = false := decide_eq_false hcb
      have hw' : g.rules.reproduce.inRange (countNeighbors g.board c.1 c.2)
          = true := by
        rw [willLive, hdec] at hw
        exact hw
      have hcount : countNeighbors g.board c.1 c.2 ≠ 0 := by
        intro h0
        rw [h0] at hw'
        rw [hw'] at hbirth
        cases hbirth
      obtain ⟨a, hab, _, hanb⟩ := countNeighbors_pos hcount
      have hcn : c ∈ nbhd a.1 a.2 := by
        have := @nbhd_symm a (c.1, c.2) (by rwa [Prod.mk.eta])
        rwa [Prod.mk.eta] at this
      exact fast_complete g hf a hab c hcn hw

/-! ### The claims -/

/-- Claim C1, counterexample: on the empty generation with box (0,0,1,1) and
a rule whose birth range is [0,1), the full-rectangle step births the whole
scanned rectangle (cell (0,0) included) while the island-search step, having
no live cell to start from, births nothing — so the two steps do not produce
identical alive-sets for every input Generation and rule. -/
theorem claim_C1_counterexample :
    ((0, 0) : Coord) ∈ (nextState emptyBirthZeroGame).board ∧
    ((0, 0) : Coord) ∉ (fastNextState 9 emptyBirthZeroGame).board := by
  constructor
  · decide
  · decide

/-- Claim C1, amended: for every input Generation that satisfies the
bounding-box invariant and whose rule's birth range does not contain 0
(the default rule included), the full-rectangle step and the island-search
step produce identical alive-sets, for any positive recursion allowance. -/
theorem claim_C1_step_equivalence (g : Game) (fuel : ℕ) (hf : 1 ≤ fuel)
    (hinv : boardInv g) (hbirth : g.rules.reproduce.inRange 0 = false)
    (c : Coord) :
    c ∈ (fastNextState fuel g).board ↔ c ∈ (nextState g).board :=
  mem_fast_iff_mem_next hf hinv hbirth c

/-- Claim C1, witness: the amended equivalence applied to the blinker at the
newly-born cell (1, 1). -/
theorem claim_C1_step_equivalence_witness :
    (((1, 1) : Coord) ∈ (fastNextState 1 blinkerGame).board ↔
      ((1, 1) : Coord) ∈ (nextState blinkerGame).board) :=
  claim_C1_step_equivalence blinkerGame 1 (by decide)
    (by unfold boardInv; decide) (by decide) (1, 1)

/-- Claim C2: a coordinate is in the board produced by `nextState` exactly
when it lies in the bounding box expanded by one cell on every side and the
rule engine, applied to its current liveness and its live Moore-neighbour
count, says it should live. -/
theorem claim_C2_reference_step_semantics (g : Game) (x : Coord) :
    x ∈ (nextState g).board ↔
      (g.minHeight - 1 ≤ x.1 ∧ x.1 ≤ g.maxHeight ∧
       g.minWidth - 1 ≤ x.2 ∧ x.2 ≤ g.maxWidth ∧
       g.rules.shouldLive (decide (x ∈ g.board))
         (((mooreNeighbors x.1 x.2).filter
             (fun a => decide (a ∈ g.board))).length : ℤ) = true) := by
  rw [mem_nextState, mem_scanCells, willLive, ← countNeighbors_moore]
  tauto

/-- Claim C3: the bounding-box invariant holds for the seeded initial
Generation (whose box is also well formed for non-negative dimensions), and
both step operations preserve the invariant together with box
well-formedness — the combination that actually holds of every Generation
the program constructs. -/
theorem claim_C3_box_invariant :
    (∀ (h w : ℤ) (draw : ℤ → ℤ → Bool) (rules : GameRules),
        boardInv (mkGame h w draw rules) ∧
        (0 ≤ h → 0 ≤ w → boxWF (mkGame h w draw rules))) ∧
    (∀ g : Game, boardInv g → boxWF g →
        boardInv (nextState g) ∧ boxWF (nextState g)) ∧
    (∀ (g : Game) (fuel : ℕ), boardInv g → boxWF g →
        boardInv (fastNextState fuel g) ∧ boxWF (fastNextState fuel g)) := by
  refine ⟨?_, ?_, ?_⟩
  · intro h w draw rules
    constructor
    · intro c hc
      have hr := mkGame_board_rect h w draw rules c hc
      exact ⟨hr.1, hr.2.1, hr.2.2.1, hr.2.2.2⟩
    · intro hh hw
      exact ⟨hh, hw⟩
  · intro g _ hwf
    exact ⟨next_boardInv hwf, next_boxWF hwf⟩
  · intro g fuel hinv hwf
    exact ⟨fast_boardInv hinv fuel, fast_boxWF hwf fuel⟩

/-- Claim C3, witness: the invariant facts instantiated on the seeded 2-by-3
all-alive game and on the still-life block stepped by both algorithms. -/
theorem claim_C3_box_invariant_witness :
    boardInv (mkGame 2 3 (fun _ _ => true) defaultRules) ∧
    boardInv (nextState blockGame) ∧ boxWF (nextState blockGame) ∧
    boardInv (fastNextState 2 blockGame) ∧ boxWF (fastNextState 2 blockGame) :=
  ⟨(claim_C3_box_invariant.1 2 3 (fun _ _ => true) defaultRules).1,
   (claim_C3_box_invariant.2.1 blockGame (by unfold boardInv; decide)
      (by unfold boxWF; decide)).1,
   (claim_C3_box_invariant.2.1 blockGame (by unfold boardInv; decide)
      (by unfold boxWF; decide)).2,
   (claim_C3_box_invariant.2.2 blockGame 2 (by unfold boardInv; decide)
      (by unfold boxWF; decide)).1,
   (claim_C3_box_invariant.2.2 blockGame 2 (by unfold boardInv; decide)
      (by unfold boxWF; decide)).2⟩

/-- Claim C4: `inRange` is the half-open integer interval with `null` bounds
meaning unbounded; `shouldLive` tests the survival range for live cells and
the birth range for dead cells; the default rule survives exactly on 2 or 3
neighbours and births exactly on 3; and the game built from URL parameters
uses the default rule. -/
theorem claim_C4_rule_engine :
    (∀ (r : Range) (n : ℤ), r.inRange n = true ↔
        (∀ l, r.lowerBound = some l → l ≤ n) ∧
        (∀ u, r.upperBound = some u → n < u)) ∧
    (∀ (rules : GameRules) (n : ℤ),
        rules.shouldLive true n = rules.populate.inRange n ∧
        rules.shouldLive false n = rules.reproduce.inRange n) ∧
    (∀ n : ℤ, defaultRules.shouldLive true n = true ↔ n = 2 ∨ n = 3) ∧
    (∀ n : ℤ, defaultRules.shouldLive false n = true ↔ n = 3) ∧
    (∀ (params : List (String × ℤ)) (draw : ℤ → ℤ → Bool),
        (playFromParams params draw).rules = defaultRules) := by
  refine ⟨?_, ?_, ?_, ?_, ?_⟩
  · intro r n
    rcases r with ⟨_ | l, _ | u⟩ <;>
      simp [Range.inRange]
  · intro rules n
    exact ⟨rfl, rfl⟩
  · intro n
    simp [defaultRules, GameRules.shouldLive, Range.inRange]
    omega
  · intro n
    simp [defaultRules, GameRules.shouldLive, Range.inRange]
    omega
  · intro params draw
    rfl

/-- Claim C4, witness: the default rule births a dead cell with exactly 3
live neighbours. -/
theorem claim_C4_rule_engine_witness :
    defaultRules.shouldLive false 3 = true :=
  (claim_C4_rule_engine.2.2.2.1 3).mpr rfl

/-- Claim C5: for a Generation satisfying the box invariant, neither step
produces a cell outside the box expanded by one on every side. -/
theorem claim_C5_propagation_bound (g : Game) (fuel : ℕ)
    (hinv : boardInv g) :
    (∀ x ∈ (nextState g).board,
        g.minHeight - 1 ≤ x.1 ∧ x.1 ≤ g.maxHeight ∧
        g.minWidth - 1 ≤ x.2 ∧ x.2 ≤ g.maxWidth) ∧
    (∀ x ∈ (fastNextState fuel g).board,
        g.minHeight - 1 ≤ x.1 ∧ x.1 ≤ g.maxHeight ∧
        g.minWidth - 1 ≤ x.2 ∧ x.2 ≤ g.maxWidth) := by
  constructor
  · intro x hx
    exact mem_scanCells.mp (mem_nextState.mp hx).1
  · intro x hx
    obtain ⟨_, ⟨a, ha, hna⟩, _⟩ := (fast_sound hinv fuel).1 x hx
    have hb := hinv a ha
    rw [mem_nbhd] at hna
    omega

/-- Claim C5, witness: the bound applied to the block's surviving cell
(1, 1). -/
theorem claim_C5_propagation_bound_witness :
    blockGame.minHeight - 1 ≤ (1 : ℤ) ∧ (1 : ℤ) ≤ blockGame.maxHeight ∧
    blockGame.minWidth - 1 ≤ (1 : ℤ) ∧ (1 : ℤ) ≤ blockGame.maxWidth :=
  (claim_C5_propagation_bound blockGame 1 (by unfold boardInv; decide)).1
    (1, 1) (by decide)

/-- Claim C6: the rendered text is exactly one newline-terminated line per
row of [minHeight, maxHeight), each line having one glyph per column of
[minWidth, maxWidth) (X for live, space for dead); and the empty Generation
with box (0,0,2,3) renders as two newline-terminated rows of three
spaces. -/
theorem claim_C6_render :
    (∀ g : Game,
        render g = (renderLinesSpec g).flatMap (fun line => line ++ ['\n'])) ∧
    (∀ g : Game,
        (renderLinesSpec g).length = (g.maxHeight - g.minHeight).toNat) ∧
    (∀ g : Game, (renderLinesSpec g).map List.length =
        List.replicate (g.maxHeight - g.minHeight).toNat
          (g.maxWidth - g.minWidth).toNat) ∧
    Game.toString emptyGame23 = "   \n   \n" := by
  refine ⟨render_eq_lines, ?_, ?_, ?_⟩
  · intro g
    rw [renderLinesSpec, List.length_map, intRange_length]
  · intro g
    rw [renderLinesSpec, List.map_map]
    have : (List.length ∘ fun i =>
        (intRange g.minWidth g.maxWidth).map (fun j =>
          if (i, j) ∈ g.board then 'X' else ' ')) =
        fun _ => (g.maxWidth - g.minWidth).toNat := by
      funext i
      simp [List.length_map, intRange_length]
    rw [this, ← intRange_length g.minHeight g.maxHeight]
    exact List.map_const' _ _
  · decide

/-- Claim C7, counterexample: a negative height is not rejected anywhere —
`playFromParams` forwards it and the constructor accepts it, producing a
degenerate Game whose `maxHeight` field records the malformed value. -/
theorem claim_C7_counterexample :
    (playFromParams [("height", -5), ("width", 3)] (fun _ _ => true)).maxHeight
        = -5 ∧
    (playFromParams [("height", -5), ("width", 3)] (fun _ _ => true)).board
        = [] ∧
    (mkGame (-5) 3 (fun _ _ => true) defaultRules).maxHeight = -5 := by
  refine ⟨?_, ?_, ?_⟩ <;> decide

/-- Claim C7, amended: the program performs no configuration validation —
`playFromParams` passes the (defaulted) height and width straight into the
constructor state, and non-positive dimensions silently yield an empty
board instead of a failure. -/
theorem claim_C7_no_validation (params : List (String × ℤ))
    (draw : ℤ → ℤ → Bool) :
    (playFromParams params draw).minHeight = 0 ∧
    (playFromParams params draw).minWidth = 0 ∧
    (playFromParams params draw).maxHeight
        = (params.lookup "height").getD 100 ∧
    (playFromParams params draw).maxWidth
        = (params.lookup "width").getD 100 ∧
    ((params.lookup "height").getD 100 ≤ 0 →
        (playFromParams params draw).board = []) := by
  refine ⟨rfl, rfl, rfl, rfl, ?_⟩
  intro h
  show (mkGame ((params.lookup "height").getD 100)
      ((params.lookup "width").getD 100) draw defaultRules).board = []
  rw [mkGame]
  dsimp only
  rw [intRange_eq_nil h]
  rfl

/-- Claim C7, witness: the no-validation theorem applied to a parameter list
carrying height -5. -/
theorem claim_C7_no_validation_witness :
    (playFromParams [(("height" : String), (-5 : ℤ))] (fun _ _ => true)).board
      = [] :=
  (claim_C7_no_validation [("height", -5)] (fun _ _ => true)).2.2.2.2
    (by decide)

/-- Claim C8, counterexample: with `viewHeight=1` present, the rendered text
still has two rows (the full box) rather than being clipped to rows
[0, 1). -/
theorem claim_C8_counterexample :
    Game.toString (playFromParams
        [("height", 2), ("width", 3), ("viewHeight", 1)] (fun _ _ => false))
      = "   \n   \n" ∧
    Game.toString (playFromParams
        [("height", 2), ("width", 3), ("viewHeight", 1)] (fun _ _ => false))
      ≠ "   \n" := by
  constructor
  · decide
  · decide

/-- Claim C8, amended: the program recognises no `viewHeight` or `viewWidth`
option at all — adding such parameters leaves the constructed game (hence
both its rendering and its simulation state) unchanged, and rendering always
covers the full bounding box. -/
theorem claim_C8_view_params_ignored (params : List (String × ℤ))
    (draw : ℤ → ℤ → Bool) (vh vw : ℤ) :
    playFromParams (("viewHeight", vh) :: ("viewWidth", vw) :: params) draw
      = playFromParams params draw := by
  have e1 : (("height" : String) == "viewHeight") = false := by decide
  have e2 : (("height" : String) == "viewWidth") = false := by decide
  have e3 : (("width" : String) == "viewHeight") = false := by decide
  have e4 : (("width" : String) == "viewWidth") = false := by decide
  rw [playFromParams, playFromParams]
  rw [List.lookup, List.lookup, e1, e2, List.lookup, List.lookup, e3, e4]

/-- Claim C9: on any empty board — whatever the rule, the box, and the
recursion allowance — the island-search step produces an empty board and
leaves all four bounding-box fields unchanged. -/
theorem claim_C9_fast_empty (g : Game) (fuel : ℕ) (h : g.board = []) :
    (fastNextState fuel g).board = [] ∧
    (fastNextState fuel g).minHeight = g.minHeight ∧
    (fastNextState fuel g).minWidth = g.minWidth ∧
    (fastNextState fuel g).maxHeight = g.maxHeight ∧
    (fastNextState fuel g).maxWidth = g.maxWidth := by
  have hfold : fastFold fuel g = fastInit g := by
    rw [fastFold, h]
    rfl
  rw [fastNextState]
  rw [hfold]
  exact ⟨rfl, rfl, rfl, rfl, rfl⟩

/-- Claim C9, witness: the empty-board law on an empty shifted-box game with
a birth range containing 0. -/
theorem claim_C9_fast_empty_witness :
    (fastNextState 7 emptyShiftedGame).board = [] ∧
    (fastNextState 7 emptyShiftedGame).minHeight
        = emptyShiftedGame.minHeight ∧
    (fastNextState 7 emptyShiftedGame).minWidth
        = emptyShiftedGame.minWidth ∧
    (fastNextState 7 emptyShiftedGame).maxHeight
        = emptyShiftedGame.maxHeight ∧
    (fastNextState 7 emptyShiftedGame).maxWidth
        = emptyShiftedGame.maxWidth :=
  claim_C9_fast_empty emptyShiftedGame 7 rfl

/-- Claim C10: neither step ever shrinks the bounding box — for both
algorithms the new lower bounds are at most the old ones and the new upper
bounds at least the old ones, for every input Generation. -/
theorem claim_C10_box_never_shrinks (g : Game) (fuel : ℕ) :
    (nextState g).minHeight ≤ g.minHeight ∧
    (nextState g).minWidth ≤ g.minWidth ∧
    g.maxHeight ≤ (nextState g).maxHeight ∧
    g.maxWidth ≤ (nextState g).maxWidth ∧
    (fastNextState fuel g).minHeight ≤ g.minHeight ∧
    (fastNextState fuel g).minWidth ≤ g.minWidth ∧
    g.maxHeight ≤ (fastNextState fuel g).maxHeight ∧
    g.maxWidth ≤ (fastNextState fuel g).maxWidth := by
  obtain ⟨m1, m2, m3, m4⟩ := scanFold_mono g
  obtain ⟨_, _, f1, f2, f3, f4⟩ := fastFold_le fuel g
  exact ⟨m1, m2, m3, m4, f1, f2, f3, f4⟩

end GameOfLife
